import Mathlib

/-!
Shallow embedding of the chunk-summarize-synthesize pipeline implemented in
`src/app/api/summarize/route.ts` (the `GET` handler and its helper
`splitTranscript`).  JavaScript strings are modelled as `String` (at the
pipeline interface) and as `List Char` (inside the tokenizer and the JSON
parser); machine behaviour such as `String.prototype.split(/\s+/)`,
`Array.prototype.join`, `JSON.parse` and the `zod` schema check is modelled
faithfully as executable Lean functions.
-/

/-! ## Tokenization: `transcript.split(/\s+/).filter(Boolean)` -/

/-- `takeWhile` of the non-whitespace prefix: the first word of `l`. -/
def takeWord (l : List Char) : List Char := l.takeWhile (fun c => !c.isWhitespace)

/-- Drop the leading non-whitespace run of `l`. -/
def dropWord (l : List Char) : List Char := l.dropWhile (fun c => !c.isWhitespace)

/-- Fuelled worker for `tokenize` (fuel keeps the recursion structural, so the
definition reduces in the kernel; `tokenize` supplies enough fuel). -/
def tokenizeF : Nat → List Char → List (List Char)
  | 0, _ => []
  | _ + 1, [] => []
  | n + 1, c :: cs =>
    if c.isWhitespace then tokenizeF n cs
    else (c :: takeWord cs) :: tokenizeF n (dropWord cs)

/-- `s.split(/\s+/).filter(Boolean)` from the source: the maximal runs of
non-whitespace characters of `l`, in order. -/
def tokenize (l : List Char) : List (List Char) := tokenizeF l.length l

/-! ## `splitTranscript` (route.ts lines 289-311) -/

/-- `Array.prototype.join(" ")`: words joined by single spaces. -/
def joinWords : List (List Char) → List Char
  | [] => []
  | [w] => w
  | w :: ws => w ++ ' ' :: joinWords ws

/-- The chunking loop of `splitTranscript`: take successive windows of `size`
words, emitting at most `maxChunks` of them (the loop breaks once
`chunks.length >= maxChunks`).  The source's loop diverges when `size = 0`;
the pipeline only calls it with `size = 4000 > 0`. -/
def window : List (List Char) → Nat → Nat → List (List (List Char))
  | _, _, 0 => []
  | [], _, _ + 1 => []
  | w :: ws, size, m + 1 => ((w :: ws).take size) :: window ((w :: ws).drop size) size m

/-- `splitTranscript(transcript, chunkWordCount, maxChunks)` from the source:
tokenize on whitespace runs, drop empty tokens, group into consecutive windows
of `chunkWordCount` words, stop at `maxChunks` windows, join each window with
single spaces. -/
def splitTranscript (transcript : List Char) (chunkWordCount maxChunks : Nat) :
    List (List Char) :=
  (window (tokenize transcript) chunkWordCount maxChunks).map joinWords

/-- `CHUNK_SIZE` from the source. -/
def CHUNK_SIZE : Nat := 4000

/-- `MAX_CHUNKS` from the source. -/
def MAX_CHUNKS : Nat := 5

/-! ## Tokenizer lemmas -/

theorem tokenizeF_fuel : ∀ (n m : Nat) (l : List Char), l.length ≤ n → l.length ≤ m →
    tokenizeF n l = tokenizeF m l := by
  intro n
  induction n with
  | zero =>
      intro m l hn _
      cases l with
      | nil => cases m <;> rfl
      | cons c cs => simp at hn
  | succ n ih =>
      intro m l hn hm
      cases l with
      | nil => cases m <;> rfl
      | cons c cs =>
          cases m with
          | zero => simp at hm
          | succ m =>
              have hcsn : cs.length ≤ n := by simpa using hn
              have hcsm : cs.length ≤ m := by simpa using hm
              have hdn : (dropWord cs).length ≤ n :=
                le_trans (List.Sublist.length_le (List.dropWhile_sublist _)) hcsn
              have hdm : (dropWord cs).length ≤ m :=
                le_trans (List.Sublist.length_le (List.dropWhile_sublist _)) hcsm
              simp only [tokenizeF]
              by_cases h : c.isWhitespace
              · simp [h, ih m cs hcsn hcsm]
              · simp [h, ih m (dropWord cs) hdn hdm]

theorem tokenize_cons_ws (c : Char) (cs : List Char) (h : c.isWhitespace = true) :
    tokenize (c :: cs) = tokenize cs := by
  simp [tokenize, tokenizeF, h]

theorem tokenize_cons_nws (c : Char) (cs : List Char) (h : c.isWhitespace = false) :
    tokenize (c :: cs) = (c :: takeWord cs) :: tokenize (dropWord cs) := by
  simp only [tokenize, List.length_cons, tokenizeF, h]
  rw [if_neg (by simp [h])]
  congr 1
  exact tokenizeF_fuel cs.length (dropWord cs).length (dropWord cs)
    (List.Sublist.length_le (List.dropWhile_sublist _)) (Nat.le_refl _)

/-- A word is "good" when it is non-empty and whitespace-free: exactly the
shape of every token `tokenize` produces. -/
def goodWord (w : List Char) : Prop := w ≠ [] ∧ ∀ c ∈ w, c.isWhitespace = false

theorem goodWord_takeWord_cons (c : Char) (cs : List Char) (h : c.isWhitespace = false) :
    goodWord (c :: takeWord cs) := by
  refine ⟨by simp, ?_⟩
  intro x hx
  rcases List.mem_cons.mp hx with h' | h'
  · subst h'; exact h
  · have := List.mem_takeWhile_imp h'
    simpa using this

theorem tokenize_goodWord_aux : ∀ (n : Nat) (l : List Char), l.length = n →
    ∀ w ∈ tokenize l, goodWord w := by
  intro n
  induction n using Nat.strong_induction_on with
  | _ n ih =>
      intro l hn
      cases l with
      | nil => intro w hw; simp [tokenize, tokenizeF] at hw
      | cons c cs =>
          by_cases h : c.isWhitespace
          · rw [tokenize_cons_ws c cs h]
            exact ih cs.length (by simp [← hn]) cs rfl
          · rw [tokenize_cons_nws c cs (by simpa using h)]
            intro w hw
            rcases List.mem_cons.mp hw with h' | h'
            · subst h'; exact goodWord_takeWord_cons c cs (by simpa using h)
            · have hlt : (dropWord cs).length < n := by
                have h1 : (dropWord cs).length ≤ cs.length :=
                  List.Sublist.length_le (List.dropWhile_sublist _)
                have h2 : cs.length + 1 = n := by simpa using hn
                omega
              exact ih (dropWord cs).length hlt (dropWord cs) rfl w h'

theorem tokenize_goodWord (l : List Char) : ∀ w ∈ tokenize l, goodWord w :=
  tokenize_goodWord_aux l.length l rfl

theorem takeWord_append_ws (w : List Char) (r : List Char)
    (hw : ∀ c ∈ w, c.isWhitespace = false) :
    takeWord (w ++ ' ' :: r) = w := by
  induction w with
  | nil => simp [takeWord, List.takeWhile]
  | cons c cs ih =>
      have hc : c.isWhitespace = false := hw c (by simp)
      have : takeWord (cs ++ ' ' :: r) = cs := ih (fun x hx => hw x (by simp [hx]))
      simp only [takeWord, List.cons_append, List.takeWhile_cons, hc] at this ⊢
      simp [this]

theorem dropWord_append_ws (w : List Char) (r : List Char)
    (hw : ∀ c ∈ w, c.isWhitespace = false) :
    dropWord (w ++ ' ' :: r) = ' ' :: r := by
  induction w with
  | nil => simp [dropWord, List.dropWhile]
  | cons c cs ih =>
      have hc : c.isWhitespace = false := hw c (by simp)
      have : dropWord (cs ++ ' ' :: r) = ' ' :: r := ih (fun x hx => hw x (by simp [hx]))
      simp only [dropWord, List.cons_append, List.dropWhile_cons, hc] at this ⊢
      simp [this]

theorem tokenize_word_ws (w : List Char) (r : List Char) (hw : goodWord w) :
    tokenize (w ++ ' ' :: r) = w :: tokenize r := by
  obtain ⟨hne, hgood⟩ := hw
  cases w with
  | nil => exact absurd rfl hne
  | cons c cs =>
      have hc : c.isWhitespace = false := hgood c (by simp)
      have hcs : ∀ x ∈ cs, x.isWhitespace = false := fun x hx => hgood x (by simp [hx])
      rw [List.cons_append, tokenize_cons_nws c _ hc,
        takeWord_append_ws cs r hcs, dropWord_append_ws cs r hcs,
        tokenize_cons_ws ' ' r (by simp)]

theorem tokenize_word (w : List Char) (hw : goodWord w) : tokenize w = [w] := by
  obtain ⟨hne, hgood⟩ := hw
  cases w with
  | nil => exact absurd rfl hne
  | cons c cs =>
      have hc : c.isWhitespace = false := hgood c (by simp)
      have hcs : ∀ x ∈ cs, x.isWhitespace = false := fun x hx => hgood x (by simp [hx])
      rw [tokenize_cons_nws c cs hc]
      have ht : takeWord cs = cs := by
        simp only [takeWord]
        exact List.takeWhile_eq_self_iff.mpr (by simpa using hcs)
      have hd : dropWord cs = [] := by
        simp only [dropWord]
        exact List.dropWhile_eq_nil_iff.mpr (by simpa using hcs)
      rw [ht, hd]
      rfl

theorem tokenize_joinWords : ∀ (ws : List (List Char)), (∀ w ∈ ws, goodWord w) →
    tokenize (joinWords ws) = ws := by
  intro ws
  induction ws with
  | nil => intro _; rfl
  | cons w ws ih =>
      intro h
      cases ws with
      | nil => exact tokenize_word w (h w (by simp))
      | cons w' ws' =>
          have : joinWords (w :: w' :: ws') = w ++ ' ' :: joinWords (w' :: ws') := rfl
          rw [this, tokenize_word_ws w _ (h w (by simp)),
            ih (fun x hx => h x (by simp [hx]))]

/-! ## Window lemmas -/

theorem window_length_le : ∀ (ws : List (List Char)) (size m : Nat),
    (window ws size m).length ≤ m := by
  intro ws size m
  induction m generalizing ws with
  | zero => cases ws <;> simp [window]
  | succ m ih =>
      cases ws with
      | nil => simp [window]
      | cons w ws =>
          simp only [window, List.length_cons]
          exact Nat.succ_le_succ (ih _)

theorem window_mem_subset : ∀ (ws : List (List Char)) (size m : Nat),
    ∀ x ∈ window ws size m, ∀ w ∈ x, w ∈ ws := by
  intro ws size m
  induction m generalizing ws with
  | zero => cases ws <;> simp [window]
  | succ m ih =>
      cases ws with
      | nil => simp [window]
      | cons w ws =>
          intro x hx y hy
          rcases List.mem_cons.mp hx with h | h
          · subst h; exact List.mem_of_mem_take hy
          · exact List.mem_of_mem_drop (ih _ x h y hy)

theorem window_flatten : ∀ (m : Nat) (ws : List (List Char)) (size : Nat),
    ws.length ≤ size * m → (window ws size m).flatten = ws := by
  intro m
  induction m with
  | zero =>
      intro ws size h
      have : ws = [] := List.length_eq_zero.mp (by omega)
      subst this
      rfl
  | succ m ih =>
      intro ws size h
      cases ws with
      | nil => rfl
      | cons w ws =>
          simp only [window, List.flatten_cons]
          rw [ih _ size (by simp only [List.length_drop]; rw [Nat.mul_succ] at h; omega)]
          exact List.take_append_drop size (w :: ws)

theorem splitTranscript_map_tokenize (t : List Char) (u m : Nat) :
    (splitTranscript t u m).map tokenize = window (tokenize t) u m := by
  unfold splitTranscript
  rw [List.map_map]
  have : ∀ x ∈ window (tokenize t) u m, (tokenize ∘ joinWords) x = id x := by
    intro x hx
    have : ∀ w ∈ x, goodWord w := fun w hw =>
      tokenize_goodWord t w (window_mem_subset (tokenize t) u m x hx w hw)
    simpa using tokenize_joinWords x this
  rw [List.map_congr_left this, List.map_id]

/-! ## The "Transcript too short" empty-chunks check (route.ts lines 134-140) -/

/-- Model of the chunking stage of the pipeline: `splitTranscript` followed by
the `chunks.length === 0` check that throws `"Transcript too short to
process"`. -/
def chunkStage (transcript : List Char) (u m : Nat) :
    Except String (List (List Char)) :=
  let chunks := splitTranscript transcript u m
  if chunks.isEmpty then Except.error "Transcript too short to process"
  else Except.ok chunks

theorem tokenize_eq_nil_of_splitTranscript (t : List Char) (u m : Nat)
    (h : splitTranscript t u m = []) (hm : 0 < m) : tokenize t = [] := by
  by_contra hne
  rcases List.exists_cons_of_ne_nil hne with ⟨w, ws, hws⟩
  rcases Nat.exists_eq_add_of_lt hm with ⟨m', hm'⟩
  unfold splitTranscript at h
  rw [hws] at h
  subst hm'
  simp only [Nat.zero_add, window] at h
  exact List.cons_ne_nil _ _ (List.map_eq_nil_iff.mp h)

theorem splitTranscript_eq_nil_of_tokenize (t : List Char) (u m : Nat)
    (h : tokenize t = []) : splitTranscript t u m = [] := by
  unfold splitTranscript
  rw [h]
  cases m <;> rfl

/-! ## Article data model (the zod `ArticleSchema`, route.ts lines 11-21) -/

/-- One entry of `sections` in the zod schema. -/
structure ArticleSection where
  title : String
  content : String
deriving DecidableEq

/-- The `Article` shape of the zod schema. -/
structure Article where
  title : String
  introduction : String
  sections : List ArticleSection
  conclusion : String
deriving DecidableEq

/-- The section invariants of spec §3: non-empty title and content. -/
def validSection (s : ArticleSection) : Prop := s.title ≠ "" ∧ s.content ≠ ""

/-- The `Article` invariants of spec §3: every string field non-empty and a
non-empty sections list whose entries satisfy `validSection`. -/
def validArticle (a : Article) : Prop :=
  a.title ≠ "" ∧ a.introduction ≠ "" ∧ a.conclusion ≠ "" ∧
    a.sections ≠ [] ∧ ∀ s ∈ a.sections, validSection s

instance (s : ArticleSection) : Decidable (validSection s) := by
  unfold validSection; infer_instance

instance (a : Article) : Decidable (validArticle a) := by
  unfold validArticle; infer_instance

/-! ## JSON values and `JSON.parse`

The route calls the JavaScript built-in `JSON.parse` on the synthesizer's raw
output.  We model JSON values and a standard recursive-descent JSON parser
(fuelled, so it is structural and kernel-reducible).  Numbers are kept as
their raw character run: the schema only distinguishes strings from
non-strings, so numeric value does not matter. -/

inductive Jv where
  | null : Jv
  | bool : Bool → Jv
  | num : String → Jv
  | str : String → Jv
  | arr : List Jv → Jv
  | obj : List (String × Jv) → Jv

/-- JSON insignificant whitespace. -/
def jsonWs (c : Char) : Bool := c = ' ' || c = '\t' || c = '\n' || c = '\r'

/-- Skip insignificant whitespace. -/
def skipWs (l : List Char) : List Char := l.dropWhile jsonWs

/-- Decode one hexadecimal digit. -/
def hexVal (c : Char) : Option Nat :=
  if '0' ≤ c ∧ c ≤ '9' then some (c.toNat - '0'.toNat)
  else if 'a' ≤ c ∧ c ≤ 'f' then some (c.toNat - 'a'.toNat + 10)
  else if 'A' ≤ c ∧ c ≤ 'F' then some (c.toNat - 'A'.toNat + 10)
  else none

/-- Parse the body of a JSON string literal (the opening quote already
consumed), returning the decoded string and the remaining input.  Fuelled to
keep the recursion structural (callers pass the input length as fuel). -/
def pStrF : Nat → List Char → List Char → Option (String × List Char)
  | 0, _, _ => none
  | _ + 1, [], _ => none
  | _ + 1, '"' :: rest, acc => some (String.mk acc.reverse, rest)
  | n + 1, '\\' :: rest, acc =>
    (match rest with
    | '"' :: r => pStrF n r ('"' :: acc)
    | '\\' :: r => pStrF n r ('\\' :: acc)
    | '/' :: r => pStrF n r ('/' :: acc)
    | 'n' :: r => pStrF n r ('\n' :: acc)
    | 't' :: r => pStrF n r ('\t' :: acc)
    | 'r' :: r => pStrF n r ('\r' :: acc)
    | 'b' :: r => pStrF n r ('\x08' :: acc)
    | 'f' :: r => pStrF n r ('\x0c' :: acc)
    | 'u' :: h1 :: h2 :: h3 :: h4 :: r =>
      (match hexVal h1, hexVal h2, hexVal h3, hexVal h4 with
      | some a, some b, some c, some d =>
        pStrF n r (Char.ofNat (((a * 16 + b) * 16 + c) * 16 + d) :: acc)
      | _, _, _, _ => none)
    | _ => none)
  | n + 1, c :: rest, acc => pStrF n rest (c :: acc)

/-- `pStrF` with enough fuel. -/
def pStr (l : List Char) (acc : List Char) : Option (String × List Char) :=
  pStrF l.length l acc


/-- Characters that may occur in a JSON number literal. -/
def numChar (c : Char) : Bool :=
  c.isDigit || c = '-' || c = '+' || c = '.' || c = 'e' || c = 'E'

/-- Parse a JSON number (kept as its raw text). -/
def pNum (l : List Char) : Option (Jv × List Char) :=
  match l with
  | [] => none
  | c :: _ =>
    if c = '-' ∨ c.isDigit then
      let ds := l.takeWhile numChar
      if ds.any Char.isDigit then some (Jv.num (String.mk ds), l.dropWhile numChar)
      else none
    else none

mutual

/-- Parse one JSON value (leading whitespace allowed). -/
def pVal : Nat → List Char → Option (Jv × List Char)
  | 0, _ => none
  | n + 1, l =>
    match skipWs l with
    | '\x7b' :: r =>
      match skipWs r with
      | '\x7d' :: r2 => some (Jv.obj [], r2)
      | _ => pMembers n (skipWs r)
    | '[' :: r =>
      match skipWs r with
      | ']' :: r2 => some (Jv.arr [], r2)
      | _ => pElems n (skipWs r)
    | '"' :: r => (pStr r []).map (fun p => (Jv.str p.1, p.2))
    | 't' :: 'r' :: 'u' :: 'e' :: r => some (Jv.bool true, r)
    | 'f' :: 'a' :: 'l' :: 's' :: 'e' :: r => some (Jv.bool false, r)
    | 'n' :: 'u' :: 'l' :: 'l' :: r => some (Jv.null, r)
    | l2 => pNum l2

/-- Parse the members of a JSON object (at least one; the opening brace
already consumed, input positioned at the first key). -/
def pMembers : Nat → List Char → Option (Jv × List Char)
  | 0, _ => none
  | n + 1, l =>
    match l with
    | '"' :: r =>
      match pStr r [] with
      | none => none
      | some (k, r2) =>
        match skipWs r2 with
        | ':' :: r3 =>
          match pVal n r3 with
          | none => none
          | some (v, r4) =>
            match skipWs r4 with
            | ',' :: r5 =>
              match pMembers n (skipWs r5) with
              | some (Jv.obj fs, r6) => some (Jv.obj ((k, v) :: fs), r6)
              | _ => none
            | '\x7d' :: r5 => some (Jv.obj [(k, v)], r5)
            | _ => none
        | _ => none
    | _ => none

/-- Parse the elements of a JSON array (at least one; the opening bracket
already consumed). -/
def pElems : Nat → List Char → Option (Jv × List Char)
  | 0, _ => none
  | n + 1, l =>
    match pVal n l with
    | none => none
    | some (v, r) =>
      match skipWs r with
      | ',' :: r2 =>
        match pElems n r2 with
        | some (Jv.arr vs, r3) => some (Jv.arr (v :: vs), r3)
        | _ => none
      | ']' :: r2 => some (Jv.arr [v], r2)
      | _ => none

end

/-- `JSON.parse`: parse one JSON value, allowing surrounding whitespace and
rejecting trailing garbage. -/
def parseJson (l : List Char) : Option Jv :=
  match pVal (l.length + 1) l with
  | some (v, rest) => if skipWs rest = [] then some v else none
  | none => none

/-! ## The zod schema check (`ArticleSchema.parse`) -/

/-- Field lookup in a parsed JSON object. -/
def jField (fs : List (String × Jv)) (k : String) : Option Jv :=
  (fs.find? (fun p => p.1 = k)).map (fun p => p.2)

/-- `z.string()`: accept exactly JSON strings (any string, empty included). -/
def jStr : Jv → Option String
  | Jv.str s => some s
  | _ => none

/-- The section object schema: `z.object(\x7b title: z.string(), content:
z.string() \x7d)`. -/
def sectionOfJson (j : Jv) : Option ArticleSection :=
  match j with
  | Jv.obj fs => do
    let t ← (jField fs "title").bind jStr
    let c ← (jField fs "content").bind jStr
    some ⟨t, c⟩
  | _ => none

/-- `z.array(...)`: accept exactly JSON arrays. -/
def jArr : Jv → Option (List Jv)
  | Jv.arr xs => some xs
  | _ => none

/-- `ArticleSchema.parse` on a parsed JSON value: every required field must be
present and well-typed; no minimum-length constraint is imposed on any string
or on the sections array. -/
def schemaParse (j : Jv) : Option Article :=
  match j with
  | Jv.obj fs => do
    let t ← (jField fs "title").bind jStr
    let i ← (jField fs "introduction").bind jStr
    let secsJ ← (jField fs "sections").bind jArr
    let secs ← secsJ.mapM sectionOfJson
    let c ← (jField fs "conclusion").bind jStr
    some ⟨t, i, secs, c⟩
  | _ => none

/-- `String.prototype.trim`. -/
def trimL (l : List Char) : List Char :=
  ((l.dropWhile Char.isWhitespace).reverse.dropWhile Char.isWhitespace).reverse

/-- The ArticleValidator (route.ts lines 241-244): trim the raw synthesizer
output, `JSON.parse` it, and check it against the zod `ArticleSchema`; any
parse or schema failure yields `none`. -/
def validate (raw : String) : Option Article :=
  (parseJson (trimL raw.data)).bind schemaParse

/-- Canonical JSON form of a section, for the acceptance round-trip. -/
def sectionToJson (s : ArticleSection) : Jv :=
  Jv.obj [("title", Jv.str s.title), ("content", Jv.str s.content)]

/-- Canonical JSON form of an article: exactly the fields of the schema. -/
def articleToJson (a : Article) : Jv :=
  Jv.obj [("title", Jv.str a.title), ("introduction", Jv.str a.introduction),
    ("sections", Jv.arr (a.sections.map sectionToJson)),
    ("conclusion", Jv.str a.conclusion)]

/-! ## The FallbackAssembler (route.ts lines 253-264) -/

/-- `Array.prototype.join("\n\n")`. -/
def joinNN : List String → String
  | [] => ""
  | [s] => s
  | s :: rest => s ++ "\n\n" ++ joinNN rest

/-- The fallback article literally constructed in the catch branch of Step 4. -/
def fallbackArticle (videoTitle : String) (validSummaries : List String) : Article :=
  { title := videoTitle ++ " - Summary"
    introduction :=
      "This is a summary of the key points discussed in the video \"" ++
        videoTitle ++ "\"."
    sections := [{ title := "Key Points", content := joinNN validSummaries }]
    conclusion := "Please refer to the original video for full details." }

/-! ## Chunk summarization, the summary gate, and the synthesis prompt -/

/-- Outcome of one generation-service call, as the route observes it:
the call threw, resolved without message content, or resolved with content. -/
inductive GenOutcome where
  | threw : String → GenOutcome
  | noContent : GenOutcome
  | content : String → GenOutcome
deriving DecidableEq

/-- The summary string recorded for chunk `i` (route.ts lines 148-179): the
resolved content (`?? ""` on missing content), or the literal error
placeholder when the call threw. -/
def chunkSummary (i : Nat) (g : GenOutcome) : String :=
  match g with
  | GenOutcome.content s => s
  | GenOutcome.noContent => ""
  | GenOutcome.threw _ => "[Error summarizing chunk " ++ toString (i + 1) ++ "]"

/-- `String.prototype.startsWith`, on character lists: `startsWithL p s` is
true when `p` is an initial segment of `s`. -/
def startsWithL : List Char → List Char → Bool
  | [], _ => true
  | _ :: _, [] => false
  | a :: as, b :: bs => a == b && startsWithL as bs

/-- The filter predicate of route.ts line 183: JavaScript truthiness (`""` is
falsy) and not an error placeholder. -/
def usable (s : String) : Bool := !(s == "") && !(startsWithL "[Error".data s.data)

/-- The SummaryGate (route.ts lines 182-188): keep usable summaries in order;
if none survive, fail with the fatal all-chunks-failed error. -/
def gate (summaries : List String) : Except String (List String) :=
  let v := summaries.filter usable
  if v.isEmpty then Except.error "Failed to generate summaries for video sections."
  else Except.ok v

/-- The labelled summary blocks of the synthesis user prompt (route.ts lines
213-215): `validSummaries.map((summary, i) => ...)` numbers each block by its
position `i` in the filtered list. -/
def labeledSummaries (validSummaries : List String) : List String :=
  validSummaries.mapIdx
    (fun i s => "Summary of Part " ++ toString (i + 1) ++ ":\n" ++ s)

/-! ## Video metadata (route.ts Step 2) and the pipeline orchestrator -/

/-- Outcome of the video-details fetch as the route observes it: a non-ok
response (line 108, with the extracted error message), or an ok response
carrying the title at `items[0].snippet.title` when present. -/
inductive MetaOutcome where
  | fetchFailed : String → MetaOutcome
  | ok : Option String → MetaOutcome
deriving DecidableEq

/-- The title picked from an ok video-details response:
`items?.[0]?.snippet?.title || "Video " + videoId` (JavaScript `||`: a missing
or empty title falls back to the placeholder). -/
def titleFrom (videoId : String) : Option String → String
  | none => "Video " ++ videoId
  | some t => if t == "" then "Video " ++ videoId else t

/-- Step 2 of the route: a non-ok video-details response throws its extracted
error message; otherwise the title (or placeholder) is used. -/
def resolveTitle (videoId : String) (m : MetaOutcome) : Except String String :=
  match m with
  | MetaOutcome.fetchFailed msg => Except.error msg
  | MetaOutcome.ok tOpt => Except.ok (titleFrom videoId tOpt)

/-- The collaborator outcomes a single pipeline run consumes: the joined
transcript text, the metadata fetch outcome, one generation outcome per chunk
index, and the synthesis-call outcome. -/
structure RunInputs where
  videoId : String
  transcriptText : String
  meta : MetaOutcome
  chunkGen : Nat → GenOutcome
  synth : GenOutcome

/-- The chunk list the run produces (route.ts line 132). -/
def pipelineChunks (inp : RunInputs) : List (List Char) :=
  splitTranscript inp.transcriptText.data CHUNK_SIZE MAX_CHUNKS

/-- The per-chunk summaries the run records (route.ts lines 148-179);
`Promise.all` returns them indexed by chunk position regardless of completion
order. -/
def pipelineSummaries (inp : RunInputs) : List String :=
  (List.range (pipelineChunks inp).length).map (fun i => chunkSummary i (inp.chunkGen i))

/-- Step 3b/4 of the route, after the title and the usable summaries are in
hand: the synthesis call's outcome is inspected (a thrown error propagates; a
missing or empty `content` throws the fatal message of line 235); non-empty
content is parsed and validated, the fallback article standing in when that
fails.  `afterTitle` below chains this with the chunking check and the gate;
`produceArticle` is the whole pipeline from the joined transcript text. -/
def synthesisStage (synth : GenOutcome) (videoTitle : String)
    (validSummaries : List String) : Except String Article :=
  match synth with
  | GenOutcome.threw msg => Except.error msg
  | GenOutcome.noContent =>
    Except.error "Failed to generate the final article structure."
  | GenOutcome.content s =>
    if s == "" then Except.error "Failed to generate the final article structure."
    else Except.ok
      (match validate s with
      | some a => a
      | none => fallbackArticle videoTitle validSummaries)

/-- The pipeline after the title is resolved (route.ts lines 131-268): the
empty-chunks check, chunk summarization, the summary gate, synthesis, and
parse-validate-or-fallback.  Every thrown error is the `Except.error`
result. -/
def afterTitle (inp : RunInputs) (videoTitle : String) : Except String Article :=
  if (pipelineChunks inp).isEmpty then
    Except.error "Transcript too short to process"
  else
    match gate (pipelineSummaries inp) with
    | Except.error e => Except.error e
    | Except.ok validSummaries => synthesisStage inp.synth videoTitle validSummaries

/-- The `GET` handler's pipeline from the joined transcript text to the
response (route.ts lines 97-268): the empty-transcript check of Step 1, title
resolution of Step 2, then `afterTitle`.  Every thrown error is the
`Except.error` result. -/
def produceArticle (inp : RunInputs) : Except String Article :=
  if trimL inp.transcriptText.data = [] then
    Except.error "No transcript text available for this video"
  else
    match resolveTitle inp.videoId inp.meta with
    | Except.error e => Except.error e
    | Except.ok videoTitle => afterTitle inp videoTitle

/-! ## ChunkResults: the spec's view of the fan-in (§2, §4.2, §4.3) -/

/-- A chunk's recorded result: its original index and the summary string the
route stored for it (spec §3's `ChunkResult`; `status = Ok` is `usable
summaryText`, since the route encodes failure in the placeholder string). -/
structure ChunkResult where
  index : Nat
  summaryText : String
deriving DecidableEq

/-- `status = Ok` of a `ChunkResult`. -/
def resultOk (r : ChunkResult) : Bool := usable r.summaryText

/-- The SummaryGate applied to a delivered `ChunkResult` sequence: the route's
filter runs on the summary strings in delivered order. -/
def gateResults (rs : List ChunkResult) : Except String (List String) :=
  gate (rs.map (fun r => r.summaryText))

/-! # Theorems -/

/-! ## String helpers -/

theorem append_ne_empty_left (a b : String) (h : a ≠ "") : a ++ b ≠ "" := by
  intro he
  have hd : a.data ++ b.data = ([] : List Char) := by
    have := congrArg String.data he
    rw [String.data_append] at this
    exact this
  exact h (String.ext (List.append_eq_nil.mp hd).1)

theorem append_ne_empty_right (a b : String) (h : b ≠ "") : a ++ b ≠ "" := by
  intro he
  have hd : a.data ++ b.data = ([] : List Char) := by
    have := congrArg String.data he
    rw [String.data_append] at this
    exact this
  exact h (String.ext (List.append_eq_nil.mp hd).2)

theorem joinNN_ne_empty : ∀ (l : List String), l ≠ [] → (∀ s ∈ l, s ≠ "") →
    joinNN l ≠ ""
  | [], h, _ => absurd rfl h
  | [s], _, hs => by simpa [joinNN] using hs s (by simp)
  | s :: s' :: rest, _, hs => by
      have he : joinNN (s :: s' :: rest) = s ++ "\n\n" ++ joinNN (s' :: rest) := rfl
      rw [he]
      exact append_ne_empty_left _ _ (append_ne_empty_left _ _ (hs s (by simp)))

/-! ## C3: the FallbackAssembler always yields a schema-valid article -/

/-- C3: for every titleHint and every non-empty list of non-empty summaries,
the fallback assembler deterministically returns the templated article —
title `titleHint ++ " - Summary"`, fixed introduction referencing the title
hint, one "Key Points" section containing the summaries joined with blank
lines, fixed conclusion — and that article satisfies every §3 invariant. -/
theorem fallbackArticle_spec (titleHint : String) (summaries : List String)
    (hne : summaries ≠ []) (hs : ∀ s ∈ summaries, s ≠ "") :
    fallbackArticle titleHint summaries =
      { title := titleHint ++ " - Summary",
        introduction :=
          "This is a summary of the key points discussed in the video \"" ++
            titleHint ++ "\".",
        sections := [⟨"Key Points", joinNN summaries⟩],
        conclusion := "Please refer to the original video for full details." } ∧
    validArticle (fallbackArticle titleHint summaries) := by
  refine ⟨rfl, ?_, ?_, ?_, ?_, ?_⟩
  · exact append_ne_empty_right _ _ (by decide)
  · exact append_ne_empty_left _ _ (append_ne_empty_left _ _ (by decide))
  · show ("Please refer to the original video for full details." : String) ≠ ""
    decide
  · simp [fallbackArticle]
  · intro s hsec
    have : s = ⟨"Key Points", joinNN summaries⟩ := by
      simpa [fallbackArticle] using hsec
    subst this
    refine ⟨?_, joinNN_ne_empty summaries hne hs⟩
    show ("Key Points" : String) ≠ ""
    decide

/-- Witness for C3 at a concrete input. -/
theorem fallbackArticle_spec_witness :
    fallbackArticle "T" ["x"] =
      { title := "T" ++ " - Summary",
        introduction :=
          "This is a summary of the key points discussed in the video \"" ++
            "T" ++ "\".",
        sections := [⟨"Key Points", joinNN ["x"]⟩],
        conclusion := "Please refer to the original video for full details." } ∧
    validArticle (fallbackArticle "T" ["x"]) :=
  fallbackArticle_spec "T" ["x"] (by decide) (by decide)

/-! ## C2: the chunker is bounded and reconstructs the token sequence -/

/-- C2: for every input and positive `unitSize` and `maxUnits`,
`splitTranscript` returns at most `maxUnits` chunks; the chunks' token lists
are exactly the consecutive `unitSize`-token windows of the input's token
sequence; and when the token count fits within `unitSize * maxUnits` (so
`maxUnits` is not hit), concatenating the chunks' tokens in index order
reconstructs the original token sequence exactly. -/
theorem splitTranscript_spec (t : List Char) (u m : Nat) (hu : 0 < u) (hm : 0 < m) :
    (splitTranscript t u m).length ≤ m ∧
    (splitTranscript t u m).map tokenize = window (tokenize t) u m ∧
    ((tokenize t).length ≤ u * m →
      ((splitTranscript t u m).map tokenize).flatten = tokenize t) := by
  refine ⟨?_, splitTranscript_map_tokenize t u m, ?_⟩
  · unfold splitTranscript
    rw [List.length_map]
    exact window_length_le _ _ _
  · intro h
    rw [splitTranscript_map_tokenize]
    exact window_flatten m (tokenize t) u h

/-- Witness for C2 at a concrete input. -/
theorem splitTranscript_spec_witness :
    (splitTranscript "one two three".data 2 5).length ≤ 5 ∧
    (splitTranscript "one two three".data 2 5).map tokenize =
      window (tokenize "one two three".data) 2 5 ∧
    ((tokenize "one two three".data).length ≤ 2 * 5 →
      ((splitTranscript "one two three".data 2 5).map tokenize).flatten =
        tokenize "one two three".data) :=
  splitTranscript_spec "one two three".data 2 5 (by decide) (by decide)

/-! ## C9: the chunking stage errors exactly on an empty token sequence -/

/-- C9: with the positive configuration the pipeline uses, the chunking stage
(`splitTranscript` plus the empty-chunks check) signals its error exactly when
the whitespace-token sequence of the input is empty — so the pipeline never
proceeds to summarization in that case — and otherwise returns the chunk
sequence. -/
theorem chunkStage_error_iff (t : List Char) (u m : Nat) (hu : 0 < u) (hm : 0 < m) :
    (chunkStage t u m = Except.error "Transcript too short to process" ↔
      tokenize t = []) ∧
    (tokenize t ≠ [] → chunkStage t u m = Except.ok (splitTranscript t u m)) := by
  have hiff : splitTranscript t u m = [] ↔ tokenize t = [] :=
    ⟨fun h => tokenize_eq_nil_of_splitTranscript t u m h hm,
     fun h => splitTranscript_eq_nil_of_tokenize t u m h⟩
  constructor
  · constructor
    · intro herr
      by_contra hne
      have hsne : ¬(splitTranscript t u m).isEmpty := by
        simp only [List.isEmpty_iff]
        exact fun h => hne (hiff.mp h)
      unfold chunkStage at herr
      rw [if_neg hsne] at herr
      exact Except.noConfusion herr
    · intro htok
      unfold chunkStage
      rw [if_pos (by simp only [List.isEmpty_iff]; exact hiff.mpr htok)]
  · intro htok
    unfold chunkStage
    rw [if_neg (by simp only [List.isEmpty_iff]; exact fun h => htok (hiff.mp h))]

/-- Witness for C9 at a concrete input. -/
theorem chunkStage_error_iff_witness :
    (chunkStage "a b".data 2 3 = Except.error "Transcript too short to process" ↔
      tokenize "a b".data = []) ∧
    (tokenize "a b".data ≠ [] →
      chunkStage "a b".data 2 3 = Except.ok (splitTranscript "a b".data 2 3)) :=
  chunkStage_error_iff "a b".data 2 3 (by decide) (by decide)

/-! ## C7: the gate returns the Ok summaries in ascending index order -/

/-- C7: for any multiset of chunk results containing at least one Ok result,
in whatever order `results` lists them, the index-ordered delivery the
`Promise.all` fan-in guarantees (`delivered`, sorted by original chunk index)
makes the SummaryGate return exactly the Ok summaries, arranged in ascending
original-chunk-index order. -/
theorem gateResults_ok_ascending (results delivered : List ChunkResult)
    (hperm : results.Perm delivered)
    (hsorted : delivered.Sorted (fun a b => a.index < b.index))
    (hok : ∃ r ∈ results, resultOk r = true) :
    gateResults delivered =
      Except.ok ((delivered.filter resultOk).map (fun r => r.summaryText)) ∧
    (delivered.filter resultOk).Sorted (fun a b => a.index < b.index) ∧
    (delivered.filter resultOk).Perm (results.filter resultOk) := by
  have hpf : (results.filter resultOk).Perm (delivered.filter resultOk) :=
    hperm.filter _
  have hne : delivered.filter resultOk ≠ [] := by
    obtain ⟨r, hr, hro⟩ := hok
    intro hnil
    rw [hnil] at hpf
    have h1 : r ∈ results.filter resultOk := List.mem_filter.mpr ⟨hr, hro⟩
    rw [hpf.eq_nil] at h1
    exact List.not_mem_nil r h1
  have hfm : (delivered.map (fun r => r.summaryText)).filter usable =
      (delivered.filter resultOk).map (fun r => r.summaryText) :=
    List.filter_map (fun r => r.summaryText) delivered
  refine ⟨?_, hsorted.filter _, hpf.symm⟩
  unfold gateResults gate
  simp only [hfm]
  rw [if_neg (by simp [List.isEmpty_iff, hne])]

/-- Witness for C7 at a concrete input (results listed out of index order). -/
theorem gateResults_ok_ascending_witness :
    gateResults [⟨0, "a"⟩, ⟨1, "[Error summarizing chunk 2]"⟩, ⟨2, "c"⟩] =
      Except.ok ((([⟨0, "a"⟩, ⟨1, "[Error summarizing chunk 2]"⟩, ⟨2, "c"⟩] :
          List ChunkResult).filter resultOk).map (fun r => r.summaryText)) ∧
    (([⟨0, "a"⟩, ⟨1, "[Error summarizing chunk 2]"⟩, ⟨2, "c"⟩] :
        List ChunkResult).filter resultOk).Sorted (fun a b => a.index < b.index) ∧
    (([⟨0, "a"⟩, ⟨1, "[Error summarizing chunk 2]"⟩, ⟨2, "c"⟩] :
        List ChunkResult).filter resultOk).Perm
      (([⟨2, "c"⟩, ⟨0, "a"⟩, ⟨1, "[Error summarizing chunk 2]"⟩] :
        List ChunkResult).filter resultOk) :=
  gateResults_ok_ascending
    [⟨2, "c"⟩, ⟨0, "a"⟩, ⟨1, "[Error summarizing chunk 2]"⟩]
    [⟨0, "a"⟩, ⟨1, "[Error summarizing chunk 2]"⟩, ⟨2, "c"⟩]
    (by decide) (by decide) (by decide)

/-! ## C8: prompt part numbers are positions in the filtered list -/

/-- C8 counterexample: when chunk 0's summarization fails and chunk 1's
summary is usable, the synthesis prompt's only summary block is labeled
"Part 1", not the original part number 2 of the usable chunk. -/
theorem labeledSummaries_renumbered :
    usable (chunkSummary 1 (GenOutcome.content "good")) = true ∧
    labeledSummaries
      ([chunkSummary 0 (GenOutcome.threw "boom"),
        chunkSummary 1 (GenOutcome.content "good")].filter usable) =
      ["Summary of Part 1:\ngood"] ∧
    ("Summary of Part 1:\ngood" : String) ≠ "Summary of Part 2:\ngood" := by
  decide

/-- C8 (amended): in the synthesis prompt each usable summary is labeled with
its 1-based position in the filtered usable-summary list; when every summary
is usable (so no earlier chunk was filtered out) that position coincides with
the original part number. -/
theorem labeledSummaries_positions :
    (∀ vs : List String, (labeledSummaries vs).length = vs.length) ∧
    (∀ (vs : List String) (j : Nat), (labeledSummaries vs)[j]? =
      (vs[j]?).map (fun s => "Summary of Part " ++ toString (j + 1) ++ ":\n" ++ s)) ∧
    (∀ summaries : List String, (∀ s ∈ summaries, usable s = true) →
      labeledSummaries (summaries.filter usable) = labeledSummaries summaries) := by
  refine ⟨fun vs => List.length_mapIdx, fun vs j => List.getElem?_mapIdx,
    fun summaries h => ?_⟩
  rw [List.filter_eq_self.mpr (by simpa using h)]

/-- Witness for C8's amended statement at a concrete input. -/
theorem labeledSummaries_positions_witness :
    (labeledSummaries ["a", "b"])[1]? =
      ((["a", "b"] : List String)[1]?).map
        (fun s => "Summary of Part " ++ toString (1 + 1) ++ ":\n" ++ s) ∧
    labeledSummaries (["a", "b"].filter usable) = labeledSummaries ["a", "b"] :=
  ⟨labeledSummaries_positions.2.1 ["a", "b"] 1,
   labeledSummaries_positions.2.2 ["a", "b"] (by decide)⟩

/-! ## C1: what the ArticleValidator accepts and rejects -/

theorem sectionOfJson_toJson (s : ArticleSection) :
    sectionOfJson (sectionToJson s) = some s := rfl

theorem mapM_sectionOfJson (secs : List ArticleSection) :
    (secs.map sectionToJson).mapM sectionOfJson = some secs := by
  induction secs with
  | nil => rfl
  | cons s ss ih =>
      rw [List.map_cons, List.mapM_cons, sectionOfJson_toJson, ih]
      rfl

/-- C1 (amended): the validator rejects any raw text that does not parse as
JSON, any parsed value that is not an object, and any parsed object missing a
required `Article` field; and it accepts the canonical JSON form of any
`Article` unchanged — including articles with empty strings or an empty
sections list, since the zod schema imposes no non-emptiness constraints. -/
theorem validator_behaviour :
    (∀ raw : String, parseJson (trimL raw.data) = none → validate raw = none) ∧
    (∀ j : Jv, (∀ fs, j ≠ Jv.obj fs) → schemaParse j = none) ∧
    (∀ fs : List (String × Jv),
      jField fs "title" = none ∨ jField fs "introduction" = none ∨
        jField fs "sections" = none ∨ jField fs "conclusion" = none →
      schemaParse (Jv.obj fs) = none) ∧
    (∀ a : Article, schemaParse (articleToJson a) = some a) := by
  refine ⟨?_, ?_, ?_, ?_⟩
  · intro raw h
    simp [validate, h]
  · intro j h
    cases j with
    | obj fs => exact absurd rfl (h fs)
    | null => rfl
    | bool b => rfl
    | num s => rfl
    | str s => rfl
    | arr xs => rfl
  · intro fs h
    rcases h with h | h | h | h <;> simp [schemaParse, h]
  · intro a
    have h : schemaParse (articleToJson a) =
        ((a.sections.map sectionToJson).mapM sectionOfJson).bind
          (fun secs => some ⟨a.title, a.introduction, secs, a.conclusion⟩) := rfl
    rw [h, mapM_sectionOfJson]
    rfl

/-- Witness for C1's amended statement at concrete inputs. -/
theorem validator_behaviour_witness :
    validate "not json" = none ∧
    schemaParse (Jv.obj []) = none ∧
    schemaParse (articleToJson ⟨"t", "i", [⟨"s", "c"⟩], "k"⟩) =
      some ⟨"t", "i", [⟨"s", "c"⟩], "k"⟩ :=
  ⟨validator_behaviour.1 "not json" rfl,
   validator_behaviour.2.2.1 [] (Or.inl rfl),
   validator_behaviour.2.2.2 ⟨"t", "i", [⟨"s", "c"⟩], "k"⟩⟩

/-- C1 counterexample: the validator accepts (returns an `Article` for) an
object whose sections list has length 0 and whose introduction is empty, so
it does not enforce the §3 non-emptiness invariants the claim asserts. -/
theorem validator_accepts_empty_sections :
    validate "\x7b\"title\":\"t\",\"introduction\":\"\",\"sections\":[],\"conclusion\":\"c\"\x7d" =
      some ⟨"t", "", [], "c"⟩ ∧
    ¬validArticle ⟨"t", "", [], "c"⟩ := by
  exact ⟨rfl, by decide⟩

/-! ## Pipeline plumbing lemmas -/

theorem produceArticle_eq_afterTitle (inp : RunInputs) (t : String)
    (h1 : trimL inp.transcriptText.data ≠ [])
    (h2 : resolveTitle inp.videoId inp.meta = Except.ok t) :
    produceArticle inp = afterTitle inp t := by
  unfold produceArticle
  rw [if_neg h1, h2]

theorem tokenize_nil_iff (l : List Char) :
    tokenize l = [] ↔ ∀ c ∈ l, c.isWhitespace = true := by
  induction l with
  | nil => simp [tokenize, tokenizeF]
  | cons c cs ih =>
      by_cases h : c.isWhitespace
      · rw [tokenize_cons_ws c cs h]
        simp [h, ih]
      · rw [tokenize_cons_nws c cs (by simpa using h)]
        constructor
        · intro habs
          exact absurd habs (List.cons_ne_nil _ _)
        · intro hall
          exact absurd (hall c (by simp)) (by simpa using h)

theorem trimL_nil_of_all_ws (l : List Char) (h : ∀ c ∈ l, c.isWhitespace = true) :
    trimL l = [] := by
  have hin : l.dropWhile Char.isWhitespace = [] :=
    List.dropWhile_eq_nil_iff.mpr (by simpa using h)
  unfold trimL
  rw [hin]
  rfl

theorem tokenize_ne_nil_of_trim (l : List Char) (h : trimL l ≠ []) :
    tokenize l ≠ [] :=
  fun htok => h (trimL_nil_of_all_ws l ((tokenize_nil_iff l).mp htok))

theorem pipelineChunks_ne_nil (inp : RunInputs)
    (h1 : trimL inp.transcriptText.data ≠ []) :
    (pipelineChunks inp).isEmpty = false := by
  have htok := tokenize_ne_nil_of_trim _ h1
  rcases List.exists_cons_of_ne_nil htok with ⟨w, ws, hws⟩
  show (splitTranscript inp.transcriptText.data CHUNK_SIZE MAX_CHUNKS).isEmpty = false
  unfold splitTranscript
  rw [hws]
  rfl

theorem synthesisStage_content (s : String) (t : String) (valid : List String) :
    synthesisStage (GenOutcome.content s) t valid =
      if s == "" then Except.error "Failed to generate the final article structure."
      else Except.ok
        (match validate s with
        | some a => a
        | none => fallbackArticle t valid) := rfl

theorem afterTitle_eq_synthesisStage (inp : RunInputs) (t : String)
    (valid : List String)
    (h1 : trimL inp.transcriptText.data ≠ [])
    (h3 : gate (pipelineSummaries inp) = Except.ok valid) :
    afterTitle inp t = synthesisStage inp.synth t valid := by
  unfold afterTitle
  rw [if_neg (by simp [pipelineChunks_ne_nil inp h1]), h3]

/-! ## C4: invalid synthesis output degrades to the fallback article -/

/-- C4: whenever the pipeline reaches synthesis and the synthesis call
resolves with non-empty raw text that fails JSON parsing or schema validation,
the failure is not surfaced as an error: the caller receives the fallback
article built from the usable chunk summaries, with its single section titled
"Key Points". -/
theorem invalid_synthesis_falls_back (inp : RunInputs) (t : String)
    (valid : List String) (s : String)
    (h1 : trimL inp.transcriptText.data ≠ [])
    (h2 : resolveTitle inp.videoId inp.meta = Except.ok t)
    (h3 : gate (pipelineSummaries inp) = Except.ok valid)
    (h4 : inp.synth = GenOutcome.content s)
    (h5 : s ≠ "")
    (h6 : validate s = none) :
    produceArticle inp = Except.ok (fallbackArticle t valid) ∧
    (fallbackArticle t valid).sections = [⟨"Key Points", joinNN valid⟩] := by
  refine ⟨?_, rfl⟩
  rw [produceArticle_eq_afterTitle inp t h1 h2,
    afterTitle_eq_synthesisStage inp t valid h1 h3, h4,
    synthesisStage_content, if_neg (by simpa using h5), h6]

/-- Witness for C4: the synthesis call returns `"not json"` and the caller
receives the fallback article. -/
theorem invalid_synthesis_falls_back_witness :
    produceArticle ⟨"v", "hello world", MetaOutcome.ok (some "T"),
        fun _ => GenOutcome.content "good", GenOutcome.content "not json"⟩ =
      Except.ok (fallbackArticle "T" ["good"]) ∧
    (fallbackArticle "T" ["good"]).sections = [⟨"Key Points", joinNN ["good"]⟩] :=
  invalid_synthesis_falls_back
    ⟨"v", "hello world", MetaOutcome.ok (some "T"),
      fun _ => GenOutcome.content "good", GenOutcome.content "not json"⟩
    "T" ["good"] "not json" (by decide) rfl rfl rfl (by decide) rfl

/-! ## C10: empty synthesis content is fatal, not a fallback trigger -/

/-- C10: when the pipeline reaches synthesis, a transport-successful synthesis
call with missing or empty message content fails the pipeline with the fatal
"Failed to generate the final article structure." error instead of routing to
the fallback; and for non-empty content the pipeline never raises that error —
it returns an article, the fallback standing in exactly when parsing or
validation fails. -/
theorem empty_synthesis_fatal (inp : RunInputs) (t : String) (valid : List String)
    (h1 : trimL inp.transcriptText.data ≠ [])
    (h2 : resolveTitle inp.videoId inp.meta = Except.ok t)
    (h3 : gate (pipelineSummaries inp) = Except.ok valid) :
    ((inp.synth = GenOutcome.noContent ∨ inp.synth = GenOutcome.content "") →
      produceArticle inp =
        Except.error "Failed to generate the final article structure.") ∧
    (∀ s : String, inp.synth = GenOutcome.content s → s ≠ "" →
      produceArticle inp = Except.ok
        (match validate s with
        | some a => a
        | none => fallbackArticle t valid)) := by
  have hpe : produceArticle inp = synthesisStage inp.synth t valid := by
    rw [produceArticle_eq_afterTitle inp t h1 h2,
      afterTitle_eq_synthesisStage inp t valid h1 h3]
  constructor
  · rintro (h | h) <;> rw [hpe, h] <;> rfl
  · intro s hs hne
    rw [hpe, hs, synthesisStage_content, if_neg (by simpa using hne)]

/-- Witness for C10 at a concrete input with empty synthesis content. -/
theorem empty_synthesis_fatal_witness :
    produceArticle ⟨"v", "hello world", MetaOutcome.ok none,
        fun _ => GenOutcome.content "good", GenOutcome.noContent⟩ =
      Except.error "Failed to generate the final article structure." :=
  (empty_synthesis_fatal
    ⟨"v", "hello world", MetaOutcome.ok none,
      fun _ => GenOutcome.content "good", GenOutcome.noContent⟩
    ("Video " ++ "v") ["good"] (by decide) rfl rfl).1 (Or.inl rfl)

/-! ## C6: all chunks failed is fatal -/

/-- C6: when the pipeline reaches the gate and no chunk produced a usable
summary, the pipeline terminates with the fatal all-chunks-failed error —
never an empty success and never an article. -/
theorem all_chunks_failed_fatal (inp : RunInputs) (t : String)
    (h1 : trimL inp.transcriptText.data ≠ [])
    (h2 : resolveTitle inp.videoId inp.meta = Except.ok t)
    (h3 : ∀ s ∈ pipelineSummaries inp, usable s = false) :
    produceArticle inp =
      Except.error "Failed to generate summaries for video sections." := by
  rw [produceArticle_eq_afterTitle inp t h1 h2]
  unfold afterTitle
  rw [if_neg (by simp [pipelineChunks_ne_nil inp h1])]
  have hg : gate (pipelineSummaries inp) =
      Except.error "Failed to generate summaries for video sections." := by
    unfold gate
    rw [List.filter_eq_nil_iff.mpr (fun a ha => by simp [h3 a ha])]
    rfl
  rw [hg]

/-- Witness for C6: every chunk call throws and the pipeline returns the
all-chunks-failed error. -/
theorem all_chunks_failed_fatal_witness :
    produceArticle ⟨"v", "hello world", MetaOutcome.ok (some "T"),
        fun _ => GenOutcome.threw "boom", GenOutcome.content "x"⟩ =
      Except.error "Failed to generate summaries for video sections." :=
  all_chunks_failed_fatal
    ⟨"v", "hello world", MetaOutcome.ok (some "T"),
      fun _ => GenOutcome.threw "boom", GenOutcome.content "x"⟩
    "T" (by decide) rfl (by decide)

/-! ## C5: tolerance of a missing title -/

/-- C5 counterexample: a failed metadata fetch makes the pipeline return an
error — with every other collaborator outcome healthy — so it is not the case
that no metadata-provider outcome causes `produceArticle` to return an
error. -/
theorem metadata_fetch_failure_errors :
    produceArticle ⟨"v", "hello world",
        MetaOutcome.fetchFailed "Failed to fetch video details",
        fun _ => GenOutcome.content "good", GenOutcome.content "x"⟩ =
      Except.error "Failed to fetch video details" := rfl

/-- C5 (amended): when the metadata request itself succeeds, absence (or
emptiness) of the title never fails the pipeline: the title step returns the
deterministic placeholder `"Video " ++ id` in that case, and processing
continues with the resolved title. -/
theorem title_absence_tolerated (inp : RunInputs) (tOpt : Option String)
    (hm : inp.meta = MetaOutcome.ok tOpt)
    (h1 : trimL inp.transcriptText.data ≠ []) :
    resolveTitle inp.videoId inp.meta =
      Except.ok (titleFrom inp.videoId tOpt) ∧
    titleFrom inp.videoId none = "Video " ++ inp.videoId ∧
    produceArticle inp = afterTitle inp (titleFrom inp.videoId tOpt) := by
  have h2 : resolveTitle inp.videoId inp.meta =
      Except.ok (titleFrom inp.videoId tOpt) := by
    rw [hm]
    rfl
  exact ⟨h2, rfl, produceArticle_eq_afterTitle inp _ h1 h2⟩

/-- Witness for C5's amended statement at a concrete input with no title. -/
theorem title_absence_tolerated_witness :
    resolveTitle "v" (MetaOutcome.ok none) = Except.ok (titleFrom "v" none) ∧
    titleFrom "v" none = "Video " ++ "v" ∧
    produceArticle ⟨"v", "hello world", MetaOutcome.ok none,
        fun _ => GenOutcome.content "good", GenOutcome.noContent⟩ =
      afterTitle ⟨"v", "hello world", MetaOutcome.ok none,
        fun _ => GenOutcome.content "good", GenOutcome.noContent⟩
        (titleFrom "v" none) :=
  title_absence_tolerated
    ⟨"v", "hello world", MetaOutcome.ok none,
      fun _ => GenOutcome.content "good", GenOutcome.noContent⟩
    none rfl (by decide)
